import Mathlib

/-!
Shallow embedding of the channel-resolution and transcript-acquisition
pipeline of `youtube_script_auto.py`, together with its supporting text
utilities, and proofs of the specification claims about them.

Python strings are modelled as `List Char`; the external collaborators
(caption provider, search/listing provider, audio downloader,
speech-to-text engine) are modelled as explicit environment values that
fix the outcome of every external call, so each function of the source
becomes a pure Lean function of its arguments and the environment.
-/

namespace YtScript

/-! ## Whitespace (Python's `\s` under `re.UNICODE`, the default for `str`) -/

/-- The characters Python's `\s` matches for `str` patterns: the ASCII
whitespace and file/group/record/unit separators plus the Unicode
whitespace code points. -/
def pySpaceChars : List Char :=
  ['\t', '\n', '\x0b', '\x0c', '\r', '\x1c', '\x1d', '\x1e', '\x1f', ' ',
   '\x85', '\xa0', '\u1680', '\u2000', '\u2001', '\u2002', '\u2003', '\u2004',
   '\u2005', '\u2006', '\u2007', '\u2008', '\u2009', '\u200a', '\u2028',
   '\u2029', '\u202f', '\u205f', '\u3000']

def isPySpace (c : Char) : Bool := pySpaceChars.contains c

/-- Model of `re.sub(r"\s+", ch, s)`: replace every maximal run of whitespace
characters by the single character `ch` (the source uses `" "` in
`clean_text` and `_normalize_visible_text`, `"_"` in
`make_filesafe_title`).  Each maximal run contributes exactly one `ch`,
emitted here at the run's final character. -/
def subRuns (ch : Char) : List Char → List Char
  | [] => []
  | [c] => if isPySpace c then [ch] else [c]
  | c :: d :: cs =>
    if isPySpace c then
      if isPySpace d then subRuns ch (d :: cs)
      else ch :: subRuns ch (d :: cs)
    else c :: subRuns ch (d :: cs)

/-- Python `str.strip()`: drop leading and trailing whitespace. -/
def pyStrip (l : List Char) : List Char :=
  ((l.dropWhile isPySpace).reverse.dropWhile isPySpace).reverse

/-- Function `clean_text` (source lines 43-45):
`text = re.sub(r'\s+', ' ', text).strip()`. -/
def clean_text (text : List Char) : List Char :=
  pyStrip (subRuns ' ' text)

/-! ## `_normalize_visible_text` and `make_filesafe_title` (lines 48-73) -/

def scriptChars : List Char := ['s', 'c', 'r', 'i', 'p', 't']

/-- Function `_normalize_visible_text` (lines 48-57), parametric in the Unicode
character database: `nfkd c` is the NFKD decomposition of `c` and
`isMn d` whether `d` has general category Mn; the algorithm itself does
not depend on the contents of those tables. -/
def normalize_visible_text (nfkd : Char → List Char) (isMn : Char → Bool)
    (text : List Char) : List Char :=
  if text.isEmpty then []
  else
    let decomposed := (text.map nfkd).flatten
    let without_marks := decomposed.filter (fun c => !isMn c)
    pyStrip (subRuns ' ' without_marks)

/-- The character class of `re.sub(r"[<>:\\/\\|?*\"]", " ", base)` (line 64):
in the raw string, `\\` is a literal backslash and `\/`, `\|`, `\"` are
escaped `/`, `|`, `"`, so the class is the nine characters below. -/
def forbiddenChar (c : Char) : Bool :=
  c = '<' || c = '>' || c = ':' || c = '\\' || c = '/' ||
  c = '|' || c = '?' || c = '*' || c = '"'

/-- Python `s.rstrip(ch)` for a single-character strip set. -/
def pyRstrip (ch : Char) (l : List Char) : List Char :=
  (l.reverse.dropWhile (fun c => c = ch)).reverse

/-- Lines 64-73 of `make_filesafe_title`, applied to
`_normalize_visible_text(title) or "script"`. -/
def filesafeCore (base1 : List Char) : List Char :=
  -- `base = re.sub(r"[<>:\\/\\|?*\"]", " ", base)`
  let base2 := base1.map (fun c => if forbiddenChar c then ' ' else c)
  -- `base = ''.join(ch for ch in base if ch >= ' ')`
  let base3 := base2.filter (fun c => ' ' ≤ c)
  -- `base = re.sub(r"\s+", "_", base).strip().rstrip('_')`
  let base4 := pyRstrip '_' (pyStrip (subRuns '_' base3))
  -- `if len(base) > 150: base = base[:150].rstrip('_')`
  let base5 := if 150 < base4.length then pyRstrip '_' (base4.take 150) else base4
  -- `return base or "script"`
  if base5.isEmpty then scriptChars else base5

/-- Function `make_filesafe_title` (lines 60-73):
`base = _normalize_visible_text(title) or "script"`, then the cleanup
pipeline of `filesafeCore`. -/
def make_filesafe_title (nfkd : Char → List Char) (isMn : Char → Bool)
    (title : List Char) : List Char :=
  let base0 := normalize_visible_text nfkd isMn title
  filesafeCore (if base0.isEmpty then scriptChars else base0)

/-! ## The video-id extraction of `get_youtube_script` (line 88) -/

/-- Python `s.split("v=")`, specialised to the separator `"v="`: cut at
every occurrence of `'v'` followed by `'='` and drop the separator.
Because `"v="` cannot overlap itself, its occurrences are pairwise
disjoint and can be recognised by this right fold: the head part of
`splitVEq cs` starts with `'='` exactly when `cs` does, so the test
`c = 'v' ∧ h.head? = some '='` detects an occurrence at the front, and
dropping that `'='` from the head part removes the separator. -/
def splitVEq : List Char → List (List Char)
  | [] => [[]]
  | c :: cs =>
    match splitVEq cs with
    | [] => [[c]]
    | h :: t =>
      if c = 'v' ∧ h.head? = some '=' then [] :: h.tail :: t
      else (c :: h) :: t

/-- Whether `"v="` occurs in the string (as `splitVEq` scans it). -/
def occursVEq : List Char → Bool
  | [] => false
  | c :: cs => if c = 'v' ∧ cs.head? = some '=' then true else occursVEq cs

/-- Python `lst[-1]` for a non-empty list (`split` never returns an
empty list). -/
def lastElem : List (List Char) → List Char
  | [] => []
  | [x] => x
  | _ :: x :: xs => lastElem (x :: xs)

/-- Line 88, `video_id = video_url.split("v=")[-1].split("&")[0]`; the
`[0]` of a split on `"&"` is the prefix up to the first `'&'`. -/
def video_id_of (video_url : List Char) : List Char :=
  (lastElem (splitVEq video_url)).takeWhile (fun c => c ≠ '&')

/-! ## Channel resolver (lines 140-243, 452-455) -/

deriving instance DecidableEq for Except

/-- One element of the listing provider's `entries`; `none` in a field
models both an absent key and a `None` value. -/
structure Entry where
  id : Option String
  title : Option String
  url : Option String
  duration : Option Nat
deriving DecidableEq

structure Video where
  index : Nat
  title : String
  url : String
  id : String
  duration : Nat
deriving DecidableEq

/-- Python truthiness of `entry.get(...)` for a string field: `None`
and `""` are falsy. -/
def truthyStr : Option String → Bool
  | none => false
  | some s => !s.isEmpty

/-- Python `s.startswith(pre)` (structural, over the character
data). -/
def pyStartswith (s pre : String) : Bool := pre.data.isPrefixOf s.data

/-- Python `a or b` where `a` is an optional string. -/
def pyOrD (a : Option String) (b : String) : String :=
  match a with
  | some s => if s.isEmpty then b else s
  | none => b

/-- The `for i, entry in enumerate(entries[:max_results], 1)` loop body
of `_get_videos_from_url` (lines 225-239), after the truncation. -/
def buildVideos : Nat → List Entry → List Video
  | _, [] => []
  | i, e :: rest =>
    match e.id with
    | none => buildVideos (i + 1) rest          -- `if not video_id: continue`
    | some vid =>
      if vid.isEmpty then buildVideos (i + 1) rest
      else
        { index := i,
          title := e.title.getD "제목 없음",
          url := pyOrD e.url ("https://www.youtube.com/watch?v=" ++ vid),
          id := vid,
          duration := e.duration.getD 0 } :: buildVideos (i + 1) rest

/-- What a single `ydl.extract_info(channel_url)` call does. -/
inductive ListingOutcome where
  | raises
  | noInfo        -- a falsy `channel_info`
  | noEntriesKey  -- truthy `channel_info` without an `'entries'` key
  | entries (es : List Entry)
deriving DecidableEq

/-- Function `_get_videos_from_url` (lines 211-243) as a function of the listing
call's outcome: `Except.error` models the re-raised exception, `none`
the implicit or explicit `return None`. -/
def videosFromListing (o : ListingOutcome) (max_results : Nat) :
    Except Unit (Option (List Video)) :=
  match o with
  | .raises => .error ()          -- `raise Exception(f"URL에서 영상 목록 가져오기 실패: {e}")`
  | .noInfo => .ok none           -- `if channel_info and 'entries' in channel_info` fails
  | .noEntriesKey => .ok none     --   and the function falls off the end: `return None`
  | .entries es =>
    let videos := buildVideos 1 (es.take max_results)
    -- `return videos if videos else None`
    .ok (if videos.isEmpty then none else some videos)

/-- What the `ytsearch1:` call of method 1 (lines 161-167) produced:
an exception, no usable entry, or the first result's `channel_id` and
`channel` fields. -/
inductive SearchOutcome where
  | raises
  | noResults
  | found (channel_id channel : Option String)
deriving DecidableEq

/-- The external world of one `get_channel_videos` call: the search
outcome and, per channel URL, the listing outcome. -/
structure ResolverEnv where
  search : SearchOutcome
  listing : String → ListingOutcome

def _get_videos_from_url (env : ResolverEnv) (channel_url : String)
    (max_results : Nat) : Except Unit (Option (List Video)) :=
  videosFromListing (env.listing channel_url) max_results

/-- The channel-URL construction of method 1 (lines 169-182), applied
to `channel_id` (already `get('channel_id') or get('channel')`) and
`channel_name_found`. -/
def channelUrlOf (channel_id channel_name_found : Option String) : Option String :=
  if truthyStr channel_id then
    match channel_id with
    | some cid =>
      if pyStartswith cid "@" || pyStartswith cid "UC" then
        if pyStartswith cid "@" then
          some ("https://www.youtube.com/" ++ cid ++ "/videos")
        else
          some ("https://www.youtube.com/channel/" ++ cid ++ "/videos")
      else
        some ("https://www.youtube.com/channel/" ++ cid ++ "/videos")
    | none => none
  else
    match channel_name_found with
    | some cn => if cn.isEmpty then none else some ("https://www.youtube.com/c/" ++ cn ++ "/videos")
    | none => none

/-- Method 1's constructed URL (lines 164-184): `none` when the search
raised, had no entries, or yielded no usable channel identifier. -/
def searchUrl : SearchOutcome → Option String
  | .raises => none
  | .noResults => none
  | .found cid cn =>
    let channel_id := if truthyStr cid then cid else cn
    if truthyStr channel_id || truthyStr cn then channelUrlOf channel_id cn
    else none

/-- The four direct-URL guesses of method 2 (lines 190-195). -/
def guessUrls (channel_name : String) : List String :=
  ["https://www.youtube.com/@" ++ channel_name ++ "/videos",
   "https://www.youtube.com/c/" ++ channel_name ++ "/videos",
   "https://www.youtube.com/user/" ++ channel_name ++ "/videos",
   "https://www.youtube.com/channel/" ++ channel_name ++ "/videos"]

/-- The listing calls a run made, and whether a search ran, in order. -/
inductive CallEv where
  | searchCall (query : String)
  | listingCall (url : String)
deriving DecidableEq

/-- Method 2's loop (lines 197-205): swallow exceptions, skip falsy
results, return the first truthy list, `return []` on exhaustion. -/
def tryGuesses (env : ResolverEnv) (max_results : Nat) :
    List String → Option (List Video) × List CallEv
  | [] => (some [], [])
  | url :: rest =>
    match _get_videos_from_url env url max_results with
    | .error _ =>
      let p := tryGuesses env max_results rest
      (p.1, .listingCall url :: p.2)
    | .ok none =>
      let p := tryGuesses env max_results rest
      (p.1, .listingCall url :: p.2)
    | .ok (some vs) =>
      if vs.isEmpty then
        let p := tryGuesses env max_results rest
        (p.1, .listingCall url :: p.2)
      else (some vs, [.listingCall url])

/-- Function `get_channel_videos` (lines 140-209), instrumented with the calls
it makes.  When method 1 constructs a URL, its listing result is
returned as-is (line 185) unless the call raises, in which case the
`except ... pass` advances to method 2. -/
def get_channel_videos (env : ResolverEnv) (channel_name : String)
    (max_results : Nat) : Option (List Video) × List CallEv :=
  let searchEv := CallEv.searchCall ("ytsearch1:" ++ channel_name)
  match searchUrl env.search with
  | some url =>
    match _get_videos_from_url env url max_results with
    | .ok v => (v, [searchEv, .listingCall url])
    | .error _ =>
      let p := tryGuesses env max_results (guessUrls channel_name)
      (p.1, searchEv :: .listingCall url :: p.2)
  | none =>
    let p := tryGuesses env max_results (guessUrls channel_name)
    (p.1, searchEv :: p.2)

/-- The dispatch of `main` (lines 452-455): a raw URL input goes to
`_get_videos_from_url` directly, anything else to
`get_channel_videos`. -/
def resolve_channel_input (env : ResolverEnv) (input : String)
    (max_results : Nat) : Except Unit (Option (List Video)) × List CallEv :=
  if pyStartswith input "http" then
    (_get_videos_from_url env input max_results, [CallEv.listingCall input])
  else
    let p := get_channel_videos env input max_results
    (.ok p.1, p.2)

/-! ## Transcript acquirer: `get_youtube_script` (lines 87-116) -/

inductive CaptionOutcome where
  | fetched (segments : List (List Char))  -- the snippet texts, in order
  | transcriptsDisabled                    -- raises `TranscriptsDisabled`
  | noTranscriptFound                      -- raises `NoTranscriptFound`
  | otherError                             -- raises any other exception
deriving DecidableEq

inductive SttStep where
  | ok
  | raises
deriving DecidableEq

/-- The external world of one `get_youtube_script` call. -/
structure AcquirerEnv where
  captions : CaptionOutcome
  download : SttStep                    -- `download_audio(video_url)`
  loadModel : SttStep                   -- `whisper.load_model("small")`
  transcribe : Except Unit (List Char)  -- `model.transcribe(audio_file)['text']`
deriving DecidableEq

/-- The observable outcome of `get_youtube_script`: the returned value,
whether the temporary audio file exists after the return (a successful
`download_audio` creates it, the success path's `os.remove` deletes
it), and how often each external stage was invoked. -/
structure AcquireResult where
  result : Option (List Char)
  audioFileExists : Bool
  captionFetchCalls : Nat
  fallbackCalls : Nat
  transcribeCalls : Nat
deriving DecidableEq

/-- The `except (TranscriptsDisabled, NoTranscriptFound)` body
(lines 100-110): download, load model, transcribe, `clean_text`, then
`os.remove` — the removal is on the success path only; any raise lands
in `except Exception: return None` with no cleanup. -/
def speechFallback (env : AcquirerEnv) : AcquireResult :=
  match env.download with
  | .raises =>      -- no file was created
    { result := none, audioFileExists := false, captionFetchCalls := 1,
      fallbackCalls := 1, transcribeCalls := 0 }
  | .ok =>
    match env.loadModel with
    | .raises =>    -- the downloaded file is left behind
      { result := none, audioFileExists := true, captionFetchCalls := 1,
        fallbackCalls := 1, transcribeCalls := 0 }
    | .ok =>
      match env.transcribe with
      | .error _ => -- the downloaded file is left behind
        { result := none, audioFileExists := true, captionFetchCalls := 1,
          fallbackCalls := 1, transcribeCalls := 1 }
      | .ok txt =>
        { result := some (clean_text txt), audioFileExists := false,
          captionFetchCalls := 1, fallbackCalls := 1, transcribeCalls := 1 }

/-- Function `get_youtube_script` (lines 87-116).  `safe_title` (line 91) is
computed but never used afterwards, and the fetch's language priority
`[lang, 'en', 'ko']` only selects which external outcome occurs, which
the environment already fixes, so neither appears in the result. -/
def get_youtube_script (env : AcquirerEnv) (video_url : List Char) : AcquireResult :=
  let _video_id := video_id_of video_url
  match env.captions with
  | .fetched segs =>
    -- `" ".join([t.text for t in transcript_list])`, then `clean_text`
    { result := some (clean_text (List.intercalate [' '] segs)),
      audioFileExists := false, captionFetchCalls := 1,
      fallbackCalls := 0, transcribeCalls := 0 }
  | .transcriptsDisabled => speechFallback env
  | .noTranscriptFound => speechFallback env
  | .otherError =>
    -- `except Exception as e: return None`
    { result := none, audioFileExists := false, captionFetchCalls := 1,
      fallbackCalls := 0, transcribeCalls := 0 }

/-! ## Verification predicates -/

/-- The shape `clean_text` leaves a string in: every whitespace
character is a single `' '` that is not followed by another whitespace
character. -/
def spacedOk : List Char → Bool
  | [] => true
  | [c] => !isPySpace c || c == ' '
  | c :: d :: rest =>
    (if isPySpace c then c == ' ' && !isPySpace d else true) && spacedOk (d :: rest)

/-- A strategy candidate "raises or yields nothing": its listing
outcome is an exception, a `None`, or an empty list. -/
def yieldsNoVideos (o : ListingOutcome) (max_results : Nat) : Bool :=
  match videosFromListing o max_results with
  | .ok (some vs) => vs.isEmpty
  | _ => true

/-! ## Concrete environments used to evaluate the embedding -/

/-- Identity Unicode tables: every character decomposes to itself and
nothing is a combining mark. -/
def idNfkd : Char → List Char := fun c => [c]

def noMn : Char → Bool := fun _ => false

/-- Captions disabled; the audio download and model load succeed but
`model.transcribe` raises. -/
def acqEnvTranscribeRaises : AcquirerEnv :=
  { captions := .transcriptsDisabled, download := .ok, loadModel := .ok,
    transcribe := .error () }

/-- No caption track found; the whole speech-to-text fallback succeeds. -/
def acqEnvSttOk : AcquirerEnv :=
  { captions := .noTranscriptFound, download := .ok, loadModel := .ok,
    transcribe := .ok ['h', 'i', ' ', ' ', 't'] }

/-- Caption fetch succeeds with two snippets. -/
def acqEnvCaptions : AcquirerEnv :=
  { captions := .fetched [['a', ' '], [' ', 'b']], download := .ok, loadModel := .ok,
    transcribe := .ok [] }

/-- Caption fetch fails with a generic (non-caption) error. -/
def acqEnvOtherError : AcquirerEnv :=
  { captions := .otherError, download := .ok, loadModel := .ok, transcribe := .ok [] }

/-- The search finds a channel id `"UC1"`, and every listing URL yields
a falsy `channel_info`. -/
def resolverEnvSearchHit : ResolverEnv :=
  { search := .found (some "UC1") none, listing := fun _ => .noInfo }

/-- The search itself raises, and every listing URL yields a falsy
`channel_info`. -/
def resolverEnvAllFail : ResolverEnv :=
  { search := .raises, listing := fun _ => .noInfo }

/-- Five listing entries of which the second lacks a video id. -/
def entries5 : List Entry :=
  [{ id := some "a1", title := some "t1", url := none, duration := some 10 },
   { id := none, title := some "t2", url := none, duration := none },
   { id := some "a3", title := none, url := some "u3", duration := some 30 },
   { id := some "a4", title := some "t4", url := none, duration := none },
   { id := some "a5", title := some "t5", url := none, duration := some 50 }]

/-- One listing entry that lacks a video id. -/
def entryNoId : Entry := { id := none, title := some "t", url := none, duration := none }

/-! # Helper lemmas

## Whitespace collapsing: `subRuns`, `pyStrip`, `clean_text` -/

theorem subRuns_mem {ch : Char} {l : List Char} : ∀ c ∈ subRuns ch l, c = ch ∨ c ∈ l := by
  induction l using subRuns.induct ch with
  | case1 => simp [subRuns]
  | case2 c hc =>
    intro x hx
    rw [subRuns, if_pos hc] at hx
    simp only [List.mem_singleton] at hx
    exact Or.inl hx
  | case3 c hc =>
    intro x hx
    rw [subRuns, if_neg hc] at hx
    exact Or.inr hx
  | case4 c d cs hc hd ih =>
    intro x hx
    rw [subRuns, if_pos hc, if_pos hd] at hx
    rcases ih x hx with h1 | h1
    · exact Or.inl h1
    · exact Or.inr (List.mem_cons_of_mem c h1)
  | case5 c d cs hc hd ih =>
    intro x hx
    rw [subRuns, if_pos hc, if_neg hd] at hx
    rcases List.mem_cons.mp hx with rfl | hx
    · exact Or.inl rfl
    · rcases ih x hx with h1 | h1
      · exact Or.inl h1
      · exact Or.inr (List.mem_cons_of_mem c h1)
  | case6 c d cs hc ih =>
    intro x hx
    rw [subRuns, if_neg hc] at hx
    rcases List.mem_cons.mp hx with rfl | hx
    · exact Or.inr (List.mem_cons_self x (d :: cs))
    · rcases ih x hx with h1 | h1
      · exact Or.inl h1
      · exact Or.inr (List.mem_cons_of_mem c h1)

theorem pyStrip_eq (l : List Char) :
    pyStrip l = List.rdropWhile isPySpace (l.dropWhile isPySpace) := rfl

theorem pyStrip_sublist (l : List Char) : List.Sublist (pyStrip l) l := by
  rw [pyStrip_eq]
  have hp := List.rdropWhile_prefix isPySpace (l.dropWhile isPySpace)
  exact (hp.sublist).trans (List.dropWhile_sublist isPySpace)

theorem pyRstrip_eq (ch : Char) (l : List Char) :
    pyRstrip ch l = List.rdropWhile (fun c => c = ch) l := rfl

theorem pyRstrip_sublist (ch : Char) (l : List Char) : List.Sublist (pyRstrip ch l) l := by
  rw [pyRstrip_eq]
  have hp := List.rdropWhile_prefix (fun c => c = ch) l
  exact hp.sublist

theorem pyRstrip_length_le (ch : Char) (l : List Char) :
    (pyRstrip ch l).length ≤ l.length :=
  (pyRstrip_sublist ch l).length_le

theorem head_dropWhile_false (p : Char → Bool) (cs : List Char) {e : Char} {es : List Char}
    (h : cs.dropWhile p = e :: es) : p e = false := by
  induction cs with
  | nil => simp at h
  | cons a t ih =>
    rw [List.dropWhile_cons] at h
    by_cases hp : p a = true
    · rw [if_pos hp] at h
      exact ih h
    · rw [if_neg hp] at h
      injection h with h1 _
      subst h1
      simpa using hp

theorem spacedOk_tail {c : Char} {rest : List Char} (h : spacedOk (c :: rest) = true) :
    spacedOk rest = true := by
  cases rest with
  | nil => rfl
  | cons d t =>
    simp only [spacedOk, Bool.and_eq_true] at h
    exact h.2

theorem spacedOk_cons_head {c d : Char} {t : List Char}
    (h : spacedOk (c :: d :: t) = true) (hc : isPySpace c = true) :
    c = ' ' ∧ isPySpace d = false := by
  simp only [spacedOk, hc, if_true, Bool.and_eq_true, beq_iff_eq,
    Bool.not_eq_true'] at h
  exact ⟨h.1.1, h.1.2⟩

theorem spacedOk_single {c : Char} (h : spacedOk [c] = true) (hc : isPySpace c = true) :
    c = ' ' := by
  simp only [spacedOk, Bool.or_eq_true, Bool.not_eq_true', beq_iff_eq] at h
  rcases h with h | h
  · rw [h] at hc
    cases hc
  · exact h

theorem subRuns_cons_head (ch : Char) (cs : List Char) {d : Char}
    (hd : isPySpace d = false) : ∃ t, subRuns ch (d :: cs) = d :: t := by
  cases cs with
  | nil => exact ⟨[], by rw [subRuns, if_neg (by simp [hd])]⟩
  | cons e es => exact ⟨subRuns ch (e :: es), by rw [subRuns, if_neg (by simp [hd])]⟩

theorem subRuns_spacedOk (l : List Char) : spacedOk (subRuns ' ' l) = true := by
  induction l using subRuns.induct ' ' with
  | case1 => rfl
  | case2 c hc =>
    rw [subRuns, if_pos hc]
    decide
  | case3 c hc =>
    rw [subRuns, if_neg hc]
    simp only [spacedOk, Bool.or_eq_true, Bool.not_eq_true']
    exact Or.inl (by simpa using hc)
  | case4 c d cs hc hd ih =>
    rw [subRuns, if_pos hc, if_pos hd]
    exact ih
  | case5 c d cs hc hd ih =>
    rw [subRuns, if_pos hc, if_neg hd]
    have hd' : isPySpace d = false := by simpa using hd
    obtain ⟨t, ht⟩ := subRuns_cons_head ' ' cs hd'
    rw [ht]
    rw [ht] at ih
    have hsp : isPySpace ' ' = true := by decide
    simp [spacedOk, hsp, hd', ih]
  | case6 c d cs hc ih =>
    rw [subRuns, if_neg hc]
    have hc' : isPySpace c = false := by simpa using hc
    cases hr : subRuns ' ' (d :: cs) with
    | nil => simp [spacedOk, hc']
    | cons e t =>
      have ih' : spacedOk (e :: t) = true := hr ▸ ih
      simp [spacedOk, hc', ih']

theorem spacedOk_subRuns_fix : ∀ {l : List Char}, spacedOk l = true → subRuns ' ' l = l := by
  intro l
  induction l with
  | nil => intro _; rfl
  | cons c rest ih =>
    intro h
    cases rest with
    | nil =>
      by_cases hc : isPySpace c = true
      · rw [subRuns, if_pos hc, spacedOk_single h hc]
      · rw [subRuns, if_neg hc]
    | cons d t =>
      have ht : spacedOk (d :: t) = true := spacedOk_tail h
      by_cases hc : isPySpace c = true
      · have hcd := spacedOk_cons_head h hc
        rw [subRuns, if_pos hc, if_neg (by simp [hcd.2]), ih ht, hcd.1]
      · rw [subRuns, if_neg hc, ih ht]

theorem spacedOk_suffix : ∀ {l₁ l₂ : List Char}, l₁ <:+ l₂ →
    spacedOk l₂ = true → spacedOk l₁ = true := by
  intro l₁ l₂
  induction l₂ with
  | nil =>
    intro h1 _
    rw [List.suffix_nil.mp h1]
    rfl
  | cons c rest ih =>
    intro h1 h2
    rcases List.suffix_cons_iff.mp h1 with rfl | h1'
    · exact h2
    · exact ih h1' (spacedOk_tail h2)

theorem spacedOk_prefixClosed {l₁ l₂ : List Char} (h : l₁ <+: l₂) (h2 : spacedOk l₂ = true) :
    spacedOk l₁ = true := by
  induction l₁ generalizing l₂ with
  | nil => rfl
  | cons c t ih =>
    rcases h with ⟨r, hr⟩
    subst hr
    cases t with
    | nil =>
      cases r with
      | nil => exact h2
      | cons d rr =>
        by_cases hc : isPySpace c = true
        · have := spacedOk_cons_head h2 hc
          simp [spacedOk, hc, this.1]
        · simp [spacedOk, hc]
    | cons d tt =>
      have htail : spacedOk (d :: tt) = true :=
        ih ⟨r, by simp⟩ (spacedOk_tail h2)
      by_cases hc : isPySpace c = true
      · have hcd := spacedOk_cons_head h2 hc
        simp [spacedOk, hc, hcd.1, hcd.2, htail]
      · simp [spacedOk, hc, htail]

theorem spacedOk_pyStrip {l : List Char} (h : spacedOk l = true) :
    spacedOk (pyStrip l) = true := by
  rw [pyStrip_eq]
  have hp := List.rdropWhile_prefix isPySpace (l.dropWhile isPySpace)
  exact spacedOk_prefixClosed hp
    (spacedOk_suffix (List.dropWhile_suffix isPySpace) h)

theorem pyStrip_dropWhile_fix (l : List Char) :
    (pyStrip l).dropWhile isPySpace = pyStrip l := by
  cases hX : pyStrip l with
  | nil => rfl
  | cons d t =>
    have hp : List.rdropWhile isPySpace (l.dropWhile isPySpace) = d :: t := by
      rw [← pyStrip_eq, hX]
    rcases List.rdropWhile_prefix isPySpace (l.dropWhile isPySpace) with ⟨r, hr⟩
    rw [hp] at hr
    have hl : l.dropWhile isPySpace = d :: (t ++ r) := by
      rw [← hr, List.cons_append]
    have hd : isPySpace d = false := head_dropWhile_false isPySpace l hl
    rw [List.dropWhile_cons, if_neg (by simp [hd])]

theorem pyStrip_rdropWhile_fix (l : List Char) :
    List.rdropWhile isPySpace (pyStrip l) = pyStrip l := by
  rw [pyStrip_eq, List.rdropWhile_idempotent]

theorem pyStrip_idem (l : List Char) : pyStrip (pyStrip l) = pyStrip l := by
  conv_lhs => rw [pyStrip_eq, pyStrip_dropWhile_fix]
  exact pyStrip_rdropWhile_fix l

theorem clean_text_idem (l : List Char) : clean_text (clean_text l) = clean_text l := by
  show pyStrip (subRuns ' ' (pyStrip (subRuns ' ' l))) = pyStrip (subRuns ' ' l)
  rw [spacedOk_subRuns_fix (spacedOk_pyStrip (subRuns_spacedOk l))]
  exact pyStrip_idem (subRuns ' ' l)

theorem spacedOk_chain {l : List Char} (h : spacedOk l = true) :
    List.Chain' (fun a b => isPySpace a = false ∨ isPySpace b = false) l := by
  induction l with
  | nil => simp
  | cons c rest ih =>
    cases rest with
    | nil => simp
    | cons d t =>
      rw [List.chain'_cons]
      refine ⟨?_, ih (spacedOk_tail h)⟩
      by_cases hc : isPySpace c = true
      · exact Or.inr (spacedOk_cons_head h hc).2
      · exact Or.inl (by simpa using hc)

/-- Everything `clean_text` returns is in clean form: it is a fixed
point of `clean_text`, carries no leading or trailing whitespace, and
has no two adjacent whitespace characters. -/
theorem clean_text_props (s : List Char) :
    clean_text (clean_text s) = clean_text s ∧
    (clean_text s).dropWhile isPySpace = clean_text s ∧
    List.rdropWhile isPySpace (clean_text s) = clean_text s ∧
    List.Chain' (fun a b => isPySpace a = false ∨ isPySpace b = false) (clean_text s) := by
  refine ⟨clean_text_idem s, pyStrip_dropWhile_fix (subRuns ' ' s),
    pyStrip_rdropWhile_fix (subRuns ' ' s), ?_⟩
  exact spacedOk_chain (spacedOk_pyStrip (subRuns_spacedOk s))

/-! ## `filesafeCore` and `make_filesafe_title` -/

theorem filesafeMapFilter_mem (base1 : List Char) :
    ∀ c ∈ (base1.map (fun c => if forbiddenChar c then ' ' else c)).filter
      (fun c => ' ' ≤ c), forbiddenChar c = false ∧ ' ' ≤ c := by
  intro c hc
  rcases List.mem_filter.mp hc with ⟨hmem, hle⟩
  rcases List.mem_map.mp hmem with ⟨a, _, ha⟩
  refine ⟨?_, by simpa using hle⟩
  by_cases hfa : forbiddenChar a = true
  · have hc' : c = ' ' := by rw [← ha, if_pos hfa]
    rw [hc']
    decide
  · have hc' : c = a := by rw [← ha, if_neg hfa]
    rw [hc']
    simpa using hfa

/-- Stages `base4 → base5 → base or "script"` preserve any character
property that `scriptChars` and `'_'` satisfy. -/
theorem tailStages_mem (P : Char → Prop) (hsP : ∀ c ∈ scriptChars, P c)
    (b4 : List Char) (hb : ∀ c ∈ b4, P c) :
    ∀ c ∈ (if (if 150 < b4.length then pyRstrip '_' (b4.take 150) else b4).isEmpty
            then scriptChars
            else if 150 < b4.length then pyRstrip '_' (b4.take 150) else b4), P c := by
  have hb5 : ∀ c ∈ (if 150 < b4.length then pyRstrip '_' (b4.take 150) else b4), P c := by
    intro c hc
    by_cases h150 : 150 < b4.length
    · rw [if_pos h150] at hc
      exact hb c ((List.take_sublist 150 b4).mem ((pyRstrip_sublist '_' (b4.take 150)).mem hc))
    · rw [if_neg h150] at hc
      exact hb c hc
  intro c hc
  by_cases hem : (if 150 < b4.length then pyRstrip '_' (b4.take 150) else b4).isEmpty = true
  · rw [if_pos hem] at hc
    exact hsP c hc
  · rw [if_neg hem] at hc
    exact hb5 c hc

theorem tailStages_bounds (b4 : List Char) :
    (if (if 150 < b4.length then pyRstrip '_' (b4.take 150) else b4).isEmpty
      then scriptChars
      else if 150 < b4.length then pyRstrip '_' (b4.take 150) else b4).length ≤ 150 ∧
    (if (if 150 < b4.length then pyRstrip '_' (b4.take 150) else b4).isEmpty
      then scriptChars
      else if 150 < b4.length then pyRstrip '_' (b4.take 150) else b4) ≠ [] := by
  have hb5len : (if 150 < b4.length then pyRstrip '_' (b4.take 150) else b4).length ≤ 150 := by
    by_cases h150 : 150 < b4.length
    · rw [if_pos h150]
      refine le_trans (pyRstrip_length_le '_' (b4.take 150)) ?_
      rw [List.length_take]
      omega
    · rw [if_neg h150]
      omega
  by_cases hem : (if 150 < b4.length then pyRstrip '_' (b4.take 150) else b4).isEmpty = true
  · rw [if_pos hem]
    exact ⟨by decide, by decide⟩
  · rw [if_neg hem]
    refine ⟨hb5len, ?_⟩
    intro hnil
    rw [hnil] at hem
    exact hem rfl

theorem filesafeCore_chars (base1 : List Char) :
    ∀ c ∈ filesafeCore base1, forbiddenChar c = false ∧ ' ' ≤ c := by
  have hb4 : ∀ c ∈ pyRstrip '_' (pyStrip (subRuns '_'
      ((base1.map (fun c => if forbiddenChar c then ' ' else c)).filter (fun c => ' ' ≤ c)))),
      forbiddenChar c = false ∧ ' ' ≤ c := by
    intro c hc
    have hc2 : c ∈ subRuns '_'
        ((base1.map (fun c => if forbiddenChar c then ' ' else c)).filter (fun c => ' ' ≤ c)) :=
      (pyStrip_sublist _).mem ((pyRstrip_sublist '_' _).mem hc)
    rcases subRuns_mem c hc2 with rfl | hc3
    · exact ⟨by decide, by decide⟩
    · exact filesafeMapFilter_mem base1 c hc3
  intro c hc
  simp only [filesafeCore] at hc
  exact tailStages_mem (fun c => forbiddenChar c = false ∧ ' ' ≤ c)
    (by decide) _ hb4 c hc

theorem filesafeCore_length (base1 : List Char) : (filesafeCore base1).length ≤ 150 := by
  have h := (tailStages_bounds (pyRstrip '_' (pyStrip (subRuns '_'
    ((base1.map (fun c => if forbiddenChar c then ' ' else c)).filter (fun c => ' ' ≤ c)))))).1
  simpa only [filesafeCore] using h

theorem filesafeCore_ne_nil (base1 : List Char) : filesafeCore base1 ≠ [] := by
  have h := (tailStages_bounds (pyRstrip '_' (pyStrip (subRuns '_'
    ((base1.map (fun c => if forbiddenChar c then ' ' else c)).filter (fun c => ' ' ≤ c)))))).2
  simpa only [filesafeCore] using h

/-! ## `splitVEq`, `lastElem`, `video_id_of` -/

theorem splitVEq_ne_nil (l : List Char) : splitVEq l ≠ [] := by
  cases l with
  | nil => simp [splitVEq]
  | cons c cs =>
    cases hs : splitVEq cs with
    | nil => simp [splitVEq, hs]
    | cons h t =>
      simp only [splitVEq, hs]
      split <;> simp

theorem splitVEq_no_occ : ∀ {s : List Char}, occursVEq s = false → splitVEq s = [s] := by
  intro s
  induction s with
  | nil => intro _; rfl
  | cons c cs ih =>
    intro h
    have hcond : ¬(c = 'v' ∧ cs.head? = some '=') := by
      intro hc
      simp only [occursVEq, if_pos hc] at h
      exact absurd h (by decide)
    have hcs : occursVEq cs = false := by
      simp only [occursVEq, if_neg hcond] at h
      exact h
    simp only [splitVEq, ih hcs]
    rw [if_neg hcond]

theorem splitVEq_cons (c : Char) (cs : List Char) {h : List Char} {t : List (List Char)}
    (hs : splitVEq cs = h :: t) :
    splitVEq (c :: cs) = if c = 'v' ∧ h.head? = some '=' then [] :: h.tail :: t
      else (c :: h) :: t := by
  rw [splitVEq.eq_def]
  simp only [hs]

theorem splitVEq_append (s t : List Char) :
    ∃ pre, pre ≠ [] ∧ splitVEq (s ++ 'v' :: '=' :: t) = pre ++ splitVEq t := by
  induction s with
  | nil =>
    refine ⟨[[]], by simp, ?_⟩
    rcases hsp : splitVEq t with _ | ⟨h, t'⟩
    · exact absurd hsp (splitVEq_ne_nil t)
    · have h1 : splitVEq ('=' :: t) = ('=' :: h) :: t' := by
        rw [splitVEq_cons '=' t hsp, if_neg]
        simp
      have h2 : splitVEq ('v' :: '=' :: t) = [] :: h :: t' := by
        rw [splitVEq_cons 'v' ('=' :: t) h1, if_pos ⟨rfl, rfl⟩]
        rfl
      rw [List.nil_append, h2]
      rfl
  | cons c s' ih =>
    rcases ih with ⟨pre, hpre, heq⟩
    rcases pre with _ | ⟨q, qs⟩
    · exact absurd rfl hpre
    · have heq' : splitVEq (s' ++ 'v' :: '=' :: t) = q :: (qs ++ splitVEq t) := by
        rw [heq]
        rfl
      by_cases hc : c = 'v' ∧ q.head? = some '='
      · refine ⟨[] :: q.tail :: qs, by simp, ?_⟩
        rw [List.cons_append, splitVEq_cons c (s' ++ 'v' :: '=' :: t) heq', if_pos hc]
        simp
      · refine ⟨(c :: q) :: qs, by simp, ?_⟩
        rw [List.cons_append, splitVEq_cons c (s' ++ 'v' :: '=' :: t) heq', if_neg hc]
        simp

theorem lastElem_cons_cons (x y : List Char) (ys : List (List Char)) :
    lastElem (x :: y :: ys) = lastElem (y :: ys) := rfl

theorem lastElem_append : ∀ {l₁ l₂ : List (List Char)}, l₂ ≠ [] →
    lastElem (l₁ ++ l₂) = lastElem l₂ := by
  intro l₁
  induction l₁ with
  | nil => intro l₂ _; rfl
  | cons x xs ih =>
    intro l₂ h
    rcases xs with _ | ⟨y, ys⟩
    · rcases l₂ with _ | ⟨z, zs⟩
      · exact absurd rfl h
      · rfl
    · have := ih h
      simp only [List.cons_append] at this ⊢
      rw [lastElem_cons_cons, this]

theorem video_id_no_marker {s : List Char} (h : occursVEq s = false) :
    video_id_of s = s.takeWhile (fun c => c ≠ '&') := by
  unfold video_id_of
  rw [splitVEq_no_occ h]
  rfl

theorem video_id_after_marker {s t : List Char} (h : occursVEq t = false) :
    video_id_of (s ++ 'v' :: '=' :: t) = t.takeWhile (fun c => c ≠ '&') := by
  unfold video_id_of
  rcases splitVEq_append s t with ⟨pre, hpre, heq⟩
  rw [heq, lastElem_append (splitVEq_ne_nil t), splitVEq_no_occ h]
  rfl

/-! ## Resolver lemmas -/

theorem buildVideos_indexes (es : List Entry) : ∀ (k : Nat),
    (buildVideos k es).map (fun v => v.index) =
      ((List.enumFrom k es).filter (fun p => truthyStr p.2.id)).map Prod.fst := by
  induction es with
  | nil => intro k; rfl
  | cons e rest ih =>
    intro k
    cases hid : e.id with
    | none =>
      simp only [buildVideos, hid, List.enumFrom, List.filter_cons]
      simpa [truthyStr] using ih (k + 1)
    | some vid =>
      by_cases hv : vid.isEmpty = true
      · simp only [buildVideos, hid, if_pos hv, List.enumFrom, List.filter_cons]
        simpa [truthyStr, hv] using ih (k + 1)
      · simp only [buildVideos, hid, if_neg hv, List.enumFrom, List.filter_cons]
        simpa [truthyStr, hv] using ih (k + 1)

theorem buildVideos_all_skip : ∀ (es : List Entry),
    (∀ e ∈ es, truthyStr e.id = false) → ∀ k, buildVideos k es = [] := by
  intro es
  induction es with
  | nil => intro _ k; rfl
  | cons e rest ih =>
    intro h k
    have he : truthyStr e.id = false := h e (List.mem_cons_self e rest)
    have hrest : ∀ x ∈ rest, truthyStr x.id = false :=
      fun x hx => h x (List.mem_cons_of_mem e hx)
    cases hid : e.id with
    | none =>
      simp only [buildVideos, hid]
      exact ih hrest (k + 1)
    | some vid =>
      rw [hid] at he
      have hv : vid.isEmpty = true := by simpa [truthyStr] using he
      simp only [buildVideos, hid, if_pos hv]
      exact ih hrest (k + 1)

theorem tryGuesses_exhaust (env : ResolverEnv) (max_results : Nat) :
    ∀ (urls : List String),
      (∀ url ∈ urls, yieldsNoVideos (env.listing url) max_results = true) →
      tryGuesses env max_results urls = (some [], urls.map CallEv.listingCall) := by
  intro urls
  induction urls with
  | nil => intro _; rfl
  | cons url rest ih =>
    intro h
    have hrest := fun u hu => h u (List.mem_cons_of_mem url hu)
    have hurl := h url (List.mem_cons_self url rest)
    simp only [tryGuesses, _get_videos_from_url]
    cases hv : videosFromListing (env.listing url) max_results with
    | error e => simp [ih hrest]
    | ok v =>
      cases v with
      | none => simp [ih hrest]
      | some vs =>
        have hvs : vs.isEmpty = true := by
          unfold yieldsNoVideos at hurl
          rw [hv] at hurl
          exact hurl
        simp [hvs, ih hrest]

/-- Never an empty list inside `.ok (some _)`. -/
theorem videosFromListing_ok_ne_nil (o : ListingOutcome) (max_results : Nat)
    (vs : List Video) (h : videosFromListing o max_results = .ok (some vs)) :
    vs ≠ [] := by
  cases o with
  | raises => simp [videosFromListing] at h
  | noInfo => simp [videosFromListing] at h
  | noEntriesKey => simp [videosFromListing] at h
  | entries es =>
    simp only [videosFromListing] at h
    by_cases hb : (buildVideos 1 (es.take max_results)).isEmpty = true
    · rw [if_pos hb] at h
      simp at h
    · rw [if_neg hb] at h
      have : vs = buildVideos 1 (es.take max_results) := by
        injection h with h1
        injection h1 with h2
        exact h2.symm
      rw [this]
      intro hnil
      rw [hnil] at hb
      exact hb rfl

/-- Method 1 short-circuits: when the search stage constructed a URL
and its listing call does not raise, its result is returned as-is. -/
theorem gcv_search_direct (env : ResolverEnv) (name : String) (max_results : Nat)
    (u : String) (v : Option (List Video))
    (hu : searchUrl env.search = some u)
    (hv : videosFromListing (env.listing u) max_results = .ok v) :
    get_channel_videos env name max_results =
      (v, [CallEv.searchCall ("ytsearch1:" ++ name), CallEv.listingCall u]) := by
  unfold get_channel_videos
  rw [hu]
  dsimp only [_get_videos_from_url]
  rw [hv]

/-- When the search stage produced no URL, the guesses decide the
result. -/
theorem gcv_no_search_url (env : ResolverEnv) (name : String) (max_results : Nat)
    (hu : searchUrl env.search = none) :
    get_channel_videos env name max_results =
      ((tryGuesses env max_results (guessUrls name)).1,
        CallEv.searchCall ("ytsearch1:" ++ name) ::
          (tryGuesses env max_results (guessUrls name)).2) := by
  unfold get_channel_videos
  rw [hu]

/-- When the search stage produced a URL whose listing call raises, the
guesses decide the result. -/
theorem gcv_search_raises (env : ResolverEnv) (name : String) (max_results : Nat)
    (u : String) (hu : searchUrl env.search = some u)
    (hv : videosFromListing (env.listing u) max_results = .error ()) :
    get_channel_videos env name max_results =
      ((tryGuesses env max_results (guessUrls name)).1,
        CallEv.searchCall ("ytsearch1:" ++ name) :: CallEv.listingCall u ::
          (tryGuesses env max_results (guessUrls name)).2) := by
  unfold get_channel_videos
  rw [hu]
  dsimp only [_get_videos_from_url]
  rw [hv]

/-! ## Acquirer lemmas -/

/-- Every non-null `get_youtube_script` result is `clean_text` of
something. -/
theorem gys_result_shape (env : AcquirerEnv) (video_url : List Char) :
    (get_youtube_script env video_url).result = none ∨
      ∃ s, (get_youtube_script env video_url).result = some (clean_text s) := by
  unfold get_youtube_script speechFallback
  cases env.captions with
  | fetched segs => exact Or.inr ⟨List.intercalate [' '] segs, rfl⟩
  | otherError => exact Or.inl rfl
  | transcriptsDisabled =>
    cases env.download with
    | raises => exact Or.inl rfl
    | ok =>
      cases env.loadModel with
      | raises => exact Or.inl rfl
      | ok =>
        cases env.transcribe with
        | error e => exact Or.inl rfl
        | ok txt => exact Or.inr ⟨txt, rfl⟩
  | noTranscriptFound =>
    cases env.download with
    | raises => exact Or.inl rfl
    | ok =>
      cases env.loadModel with
      | raises => exact Or.inl rfl
      | ok =>
        cases env.transcribe with
        | error e => exact Or.inl rfl
        | ok txt => exact Or.inr ⟨txt, rfl⟩

theorem make_filesafe_title_eq (nfkd : Char → List Char) (isMn : Char → Bool)
    (title : List Char) :
    make_filesafe_title nfkd isMn title =
      filesafeCore (if (normalize_visible_text nfkd isMn title).isEmpty then scriptChars
        else normalize_visible_text nfkd isMn title) := rfl

/-! # Claim theorems -/

/-- C1, counterexample: caption retrieval fails with the
captions-disabled condition, the audio download and model load succeed,
and `model.transcribe` raises; `get_youtube_script` returns null with
the temporary audio file still existing, contradicting the claim that
the file no longer exists on every exit path of the fallback. -/
theorem claim1_counterexample :
    (get_youtube_script acqEnvTranscribeRaises ['x']).audioFileExists = true ∧
    (get_youtube_script acqEnvTranscribeRaises ['x']).result = none := by
  exact ⟨rfl, rfl⟩

/-- C1, amended: when caption retrieval fails with the distinguished
captions-disabled / no-caption-track condition, the temporary audio
file exists after the call returns exactly when the download succeeded
and then the model load or the transcription raised; in particular the
file is deleted when transcription succeeds, and no file exists when
the download itself raises. -/
theorem claim1_theorem (env : AcquirerEnv) (video_url : List Char)
    (h : env.captions = .transcriptsDisabled ∨ env.captions = .noTranscriptFound) :
    (get_youtube_script env video_url).audioFileExists = true ↔
      env.download = .ok ∧
        (env.loadModel = .raises ∨
          (env.loadModel = .ok ∧ env.transcribe = .error ())) := by
  have hgys : get_youtube_script env video_url = speechFallback env := by
    unfold get_youtube_script
    rcases h with h | h <;> rw [h]
  rw [hgys]
  unfold speechFallback
  cases hdl : env.download <;> cases hlm : env.loadModel <;>
    cases htr : env.transcribe <;> simp_all

/-- C1, witness: on the successful-transcription path the file is
gone. -/
theorem claim1_witness :
    (get_youtube_script acqEnvSttOk ['x']).audioFileExists = false := by
  have h := claim1_theorem acqEnvSttOk ['x'] (Or.inr rfl)
  by_cases hb : (get_youtube_script acqEnvSttOk ['x']).audioFileExists = true
  · rcases h.mp hb with ⟨_, hlm | ⟨_, htr⟩⟩
    · exact absurd hlm (by decide)
    · exact absurd htr (by decide)
  · simpa using hb

/-- C3: caption retrieval runs exactly once and is never retried; the
speech-to-text fallback runs exactly when caption retrieval fails with
the distinguished captions-disabled / no-caption-track condition (so at
most once); a generic caption failure returns null, and a failure of
any fallback stage returns null. -/
theorem claim3_theorem (env : AcquirerEnv) (video_url : List Char) :
    (get_youtube_script env video_url).captionFetchCalls = 1 ∧
    (get_youtube_script env video_url).fallbackCalls =
      (if env.captions = .transcriptsDisabled ∨ env.captions = .noTranscriptFound
        then 1 else 0) ∧
    (env.captions = .otherError → (get_youtube_script env video_url).result = none) ∧
    ((env.captions = .transcriptsDisabled ∨ env.captions = .noTranscriptFound) →
      (env.download = .raises ∨ env.loadModel = .raises ∨ env.transcribe = .error ()) →
      (get_youtube_script env video_url).result = none) := by
  cases hcap : env.captions <;>
    cases hdl : env.download <;> cases hlm : env.loadModel <;>
    cases htr : env.transcribe <;> simp_all [get_youtube_script, speechFallback]

/-- C3, witness: a generic caption failure yields null. -/
theorem claim3_witness :
    (get_youtube_script acqEnvOtherError ['x']).result = none :=
  ( claim3_theorem acqEnvOtherError ['x']).2.2.1 rfl

/-- C5: every non-null string `get_youtube_script` returns is
`clean_text`-normalized: it is a fixed point of `clean_text`, has no
leading or trailing whitespace, and contains no two adjacent whitespace
characters — on the caption path and on the speech-to-text path. -/
theorem claim5_theorem (env : AcquirerEnv) (video_url : List Char) (t : List Char)
    (h : (get_youtube_script env video_url).result = some t) :
    clean_text t = t ∧
    t.dropWhile isPySpace = t ∧
    List.rdropWhile isPySpace t = t ∧
    List.Chain' (fun a b => isPySpace a = false ∨ isPySpace b = false) t := by
  rcases gys_result_shape env video_url with hn | ⟨s, hs⟩
  · rw [hn] at h
    cases h
  · rw [hs] at h
    have ht : clean_text s = t := Option.some.inj h
    subst ht
    have hp := clean_text_props s
    exact ⟨hp.1, hp.2.1, hp.2.2.1, hp.2.2.2⟩

/-- C5, witness: the caption path at a concrete environment. -/
theorem claim5_witness : clean_text ['a', ' ', 'b'] = ['a', ' ', 'b'] :=
  ( claim5_theorem acqEnvCaptions ['x'] ['a', ' ', 'b'] (by decide)).1

/-- C2, counterexample: the search stage finds channel id `"UC1"`, and
the listing fetch of the constructed URL returns null without raising;
`get_channel_videos` returns null directly — the four direct-URL
guesses are never attempted and the caller does not receive an empty
sequence. -/
theorem claim2_counterexample :
    (get_channel_videos resolverEnvSearchHit "x" 10).1 = none ∧
    (get_channel_videos resolverEnvSearchHit "x" 10).2 =
      [CallEv.searchCall "ytsearch1:x",
       CallEv.listingCall "https://www.youtube.com/channel/UC1/videos"] := by
  exact ⟨rfl, rfl⟩

/-- C2, amended: when the search stage constructs a channel URL whose
listing call does not raise, its result — even null — is returned
directly and the guesses are skipped; the four direct-URL guesses are
attempted (in order) only when the search stage produces no URL or its
listing call raises, and if then every guess raises or yields nothing
the caller receives an empty sequence, not null and not an
exception. -/
theorem claim2_theorem (env : ResolverEnv) (channel_name : String) (max_results : Nat) :
    (∀ u v, searchUrl env.search = some u →
      videosFromListing (env.listing u) max_results = .ok v →
      get_channel_videos env channel_name max_results =
        (v, [CallEv.searchCall ("ytsearch1:" ++ channel_name), CallEv.listingCall u])) ∧
    ((searchUrl env.search = none ∨
        (∃ u, searchUrl env.search = some u ∧
          videosFromListing (env.listing u) max_results = .error ())) →
      (∀ url ∈ guessUrls channel_name,
        yieldsNoVideos (env.listing url) max_results = true) →
      (get_channel_videos env channel_name max_results).1 = some [] ∧
      List.IsSuffix ((guessUrls channel_name).map CallEv.listingCall)
        (get_channel_videos env channel_name max_results).2) := by
  constructor
  · intro u v hu hv
    exact gcv_search_direct env channel_name max_results u v hu hv
  · rintro (hu | ⟨u, hu, hv⟩) hg
    · rw [gcv_no_search_url env channel_name max_results hu,
        tryGuesses_exhaust env max_results (guessUrls channel_name) hg]
      exact ⟨rfl, ⟨[CallEv.searchCall ("ytsearch1:" ++ channel_name)], rfl⟩⟩
    · rw [gcv_search_raises env channel_name max_results u hu hv,
        tryGuesses_exhaust env max_results (guessUrls channel_name) hg]
      exact ⟨rfl,
        ⟨[CallEv.searchCall ("ytsearch1:" ++ channel_name), CallEv.listingCall u], rfl⟩⟩

/-- C2, witness: the search raises and all guesses yield nothing, so
the caller receives the empty sequence. -/
theorem claim2_witness :
    (get_channel_videos resolverEnvAllFail "c" 10).1 = some [] :=
  (( claim2_theorem resolverEnvAllFail "c" 10).2 (Or.inl rfl) (by decide)).1

/-- C4, counterexample: one entry that lacks a video id makes
`_get_videos_from_url` return null, not the empty sequence the claim
requires. -/
theorem claim4_counterexample :
    videosFromListing (.entries [entryNoId]) 10 = .ok none ∧
    (Except.ok none : Except Unit (Option (List Video))) ≠ .ok (some []) := by
  exact ⟨rfl, by decide⟩

/-- C4, amended: `_get_videos_from_url` returns null both when the
provider yields no entries at all and when entries exist but every one
lacks a video id; it never returns an empty sequence. -/
theorem claim4_theorem (o : ListingOutcome) (max_results : Nat) :
    (∀ vs, videosFromListing o max_results = .ok (some vs) → vs ≠ []) ∧
    ((o = .noInfo ∨ o = .noEntriesKey ∨ o = .entries []) →
      videosFromListing o max_results = .ok none) ∧
    (∀ es, o = .entries es → (∀ e ∈ es, truthyStr e.id = false) →
      videosFromListing o max_results = .ok none) := by
  refine ⟨fun vs h => videosFromListing_ok_ne_nil o max_results vs h, ?_, ?_⟩
  · rintro (rfl | rfl | rfl) <;> simp [videosFromListing, buildVideos]
  · rintro es rfl hall
    simp only [videosFromListing]
    have hb : buildVideos 1 (es.take max_results) = [] :=
      buildVideos_all_skip (es.take max_results)
        (fun e he => hall e ((List.take_sublist max_results es).mem he)) 1
    rw [hb]
    rfl

/-- C4, witness: the amended behaviour at a concrete id-less entry. -/
theorem claim4_witness :
    videosFromListing (.entries [entryNoId]) 7 = .ok none :=
  ( claim4_theorem (.entries [entryNoId]) 7).2.2 [entryNoId] rfl (by decide)

/-- C6: the `index` fields of the videos `_get_videos_from_url` returns
are the 1-based positions of their entries in the provider's pre-filter
enumeration truncated to `max_results`, so entries skipped for lacking
an id still consume a rank slot. -/
theorem claim6_theorem (es : List Entry) (max_results : Nat) (vs : List Video)
    (h : videosFromListing (.entries es) max_results = .ok (some vs)) :
    vs.map (fun v => v.index) =
      ((List.enumFrom 1 (es.take max_results)).filter
        (fun p => truthyStr p.2.id)).map Prod.fst := by
  simp only [videosFromListing] at h
  by_cases hb : (buildVideos 1 (es.take max_results)).isEmpty = true
  · rw [if_pos hb] at h
    exact absurd h (by simp)
  · rw [if_neg hb] at h
    injection h with h1
    injection h1 with h2
    rw [← h2]
    exact buildVideos_indexes (es.take max_results) 1

/-- C6, witness: five entries of which the second lacks an id give
ranks 1, 3, 4, 5. -/
theorem claim6_witness :
    (buildVideos 1 (entries5.take 10)).map (fun v => v.index) = [1, 3, 4, 5] := by
  have h := claim6_theorem entries5 10 (buildVideos 1 (entries5.take 10)) (by decide)
  rw [h]
  decide

/-- C7: for every input (and any Unicode tables) `make_filesafe_title`
returns a non-empty string of length at most 150 containing no
forbidden character and no character below `' '` (0x20); the empty
string maps to exactly `"script"`. -/
theorem claim7_theorem (nfkd : Char → List Char) (isMn : Char → Bool)
    (title : List Char) :
    make_filesafe_title nfkd isMn title ≠ [] ∧
    (make_filesafe_title nfkd isMn title).length ≤ 150 ∧
    (∀ c ∈ make_filesafe_title nfkd isMn title, forbiddenChar c = false ∧ ' ' ≤ c) ∧
    make_filesafe_title nfkd isMn [] = scriptChars := by
  refine ⟨?_, ?_, ?_, ?_⟩
  · rw [make_filesafe_title_eq]
    exact filesafeCore_ne_nil _
  · rw [make_filesafe_title_eq]
    exact filesafeCore_length _
  · rw [make_filesafe_title_eq]
    exact filesafeCore_chars _
  · rw [make_filesafe_title_eq]
    have hnil : (normalize_visible_text nfkd isMn []).isEmpty = true := rfl
    rw [if_pos hnil]
    decide

/-- C7, witness: concrete evaluations with the identity tables. -/
theorem claim7_witness :
    make_filesafe_title idNfkd noMn ['a', '<', 'b'] ≠ [] ∧
    make_filesafe_title idNfkd noMn [] = scriptChars ∧
    make_filesafe_title idNfkd noMn ['a', '<', 'b'] = ['a', '_', 'b'] :=
  ⟨( claim7_theorem idNfkd noMn ['a', '<', 'b']).1,
   ( claim7_theorem idNfkd noMn ['a', '<', 'b']).2.2.2, by decide⟩

/-- C8: the code never strips trailing dots — `rstrip('_')` only strips
underscores, although the inline comment (line 67) announces removing
leading/trailing whitespace and dots and the function promises
Windows-safe names: `"abc."` comes back unchanged, ending in `'.'`,
while a trailing underscore is indeed trimmed. -/
theorem claim8_theorem :
    make_filesafe_title idNfkd noMn ['a', 'b', 'c', '.'] = ['a', 'b', 'c', '.'] ∧
    (make_filesafe_title idNfkd noMn ['a', 'b', 'c', '.']).getLast? = some '.' ∧
    make_filesafe_title idNfkd noMn ['a', 'b', '_'] = ['a', 'b'] := by
  exact ⟨by decide, by decide, by decide⟩

/-- C9: for a raw-URL input (starting with `"http"`) the resolver calls
the listing fetch on that URL directly: the call trace is exactly one
listing call on the input and contains no platform search. -/
theorem claim9_theorem (env : ResolverEnv) (input : String) (max_results : Nat)
    (h : pyStartswith input "http" = true) :
    resolve_channel_input env input max_results =
      (_get_videos_from_url env input max_results, [CallEv.listingCall input]) ∧
    (∀ q, CallEv.searchCall q ∉ (resolve_channel_input env input max_results).2) := by
  have he : resolve_channel_input env input max_results =
      (_get_videos_from_url env input max_results, [CallEv.listingCall input]) := by
    unfold resolve_channel_input
    rw [if_pos h]
  refine ⟨he, ?_⟩
  intro q hq
  rw [he] at hq
  simp at hq

/-- C9, witness: a concrete URL input. -/
theorem claim9_witness :
    resolve_channel_input resolverEnvAllFail "http://e" 10 =
      (_get_videos_from_url resolverEnvAllFail "http://e" 10,
        [CallEv.listingCall "http://e"]) :=
  ( claim9_theorem resolverEnvAllFail "http://e" 10 (by decide)).1

/-- C10, counterexample: the input `"a&b"` contains no `"v="`, yet the
derived id is `"a"`, not the entire input — the `"&"` truncation also
applies when `"v="` is absent. -/
theorem claim10_counterexample :
    occursVEq ['a', '&', 'b'] = false ∧
    video_id_of ['a', '&', 'b'] = ['a'] ∧
    ['a'] ≠ ['a', '&', 'b'] := by
  exact ⟨by decide, by decide, by decide⟩

/-- C10, amended: the id is the substring after the last occurrence of
`"v="` — the whole input when there is none — truncated at the first
`'&'` that follows. -/
theorem claim10_theorem (s t : List Char) :
    (occursVEq s = false → video_id_of s = s.takeWhile (fun c => c ≠ '&')) ∧
    (occursVEq t = false →
      video_id_of (s ++ 'v' :: '=' :: t) = t.takeWhile (fun c => c ≠ '&')) :=
  ⟨fun h => video_id_no_marker h, fun h => video_id_after_marker h⟩

/-- C10, witness: a watch URL and a bare id. -/
theorem claim10_witness :
    video_id_of (['u', '?'] ++ 'v' :: '=' :: ['a', 'b', '&', 't']) = ['a', 'b'] ∧
    video_id_of ['x', 'y'] = ['x', 'y'] := by
  constructor
  · rw [( claim10_theorem ['u', '?'] ['a', 'b', '&', 't']).2 (by decide)]
    decide
  · rw [( claim10_theorem ['x', 'y'] []).1 (by decide)]
    decide

end YtScript
